import Mathlib

/-!
Shallow embedding of the repetition-counting core of `src/workout_monitor.py`
(`WorkoutMonitor.__init__` and `WorkoutMonitor.start_counting`).

Modelling notes:
* A detected person's keypoint set only enters the counting logic through
  `annotator.estimate_pose_angle(...)` (an external ultralytics collaborator),
  so each per-frame detection is abstracted to the joint angle that call
  returns, as a rational number.  A frame (`results[0]`) is a `List ℚ` in the
  detections' natural order.
* Python's per-slot mutable parallel lists `self.count`, `self.angle`,
  `self.stage` become the three fields of `WorkoutState`; stages are the
  literal strings `"-"`, `"up"`, `"down"` the source stores.
* `for ind, k in enumerate(reversed(self.keypoints))` becomes `processFrom`
  running over `results.reverse` with an explicit index counter.
* In the source, the transition conditions re-read `self.angle[ind]`, which
  the line just above set to the freshly estimated angle (the index is in
  bounds whenever the list lengths are at least the frame's detection count,
  which the growth step guarantees for states built by the class itself);
  the embedding therefore uses that angle value directly.
* Drawing calls (`draw_specific_points`, `plot_angle_and_count_and_stage`,
  `kpts`, `cv2.imshow`) do not touch the counting state and are omitted.
-/

/-- Per-run configuration of `WorkoutMonitor.__init__`: the `pose_up_angle`,
`pose_down_angle` and `pose_type` parameters (defaults 145.0, 90.0,
`"pullup"`).  `kpts_to_check`, `line_thickness` and `view_img` only feed the
external pose/drawing collaborators, not the counting state machine. -/
structure Config where
  pose_up_angle : ℚ
  pose_down_angle : ℚ
  pose_type : String
deriving DecidableEq, Repr

/-- The mutable per-slot state of `WorkoutMonitor`: the parallel lists
`self.count`, `self.angle`, `self.stage`. -/
structure WorkoutState where
  count : List ℕ
  angle : List ℚ
  stage : List String
deriving DecidableEq, Repr

/-- State right after `__init__`: `self.count = []`, `self.angle = []`,
`self.stage = []`. -/
def initState : WorkoutState := ⟨[], [], []⟩

/-- `self.pose_type in {"pushup", "pullup", "abworkout", "squat"}`. -/
def isRecognized (t : String) : Bool :=
  t == "pushup" || t == "pullup" || t == "abworkout" || t == "squat"

/-- `self.pose_type in {"abworkout", "pullup"}`. -/
def isAscent (t : String) : Bool :=
  t == "abworkout" || t == "pullup"

/-- `self.pose_type in {"pushup", "squat"}`. -/
def isDescent (t : String) : Bool :=
  t == "pushup" || t == "squat"

/-- One iteration of the loop body of `start_counting` for loop index `ind`
and estimated angle `a` (source lines 87–118, drawing calls omitted). -/
def processOne (cfg : Config) (s : WorkoutState) (ind : ℕ) (a : ℚ) : WorkoutState :=
  if isRecognized cfg.pose_type then
    -- self.angle[ind] = self.annotator.estimate_pose_angle(...)
    let s0 : WorkoutState := { s with angle := s.angle.set ind a }
    if isAscent cfg.pose_type then
      -- if self.angle[ind] > self.poseup_angle: self.stage[ind] = "down"
      let s1 : WorkoutState :=
        if a > cfg.pose_up_angle then { s0 with stage := s0.stage.set ind "down" } else s0
      -- if self.angle[ind] < self.posedown_angle and self.stage[ind] == "down":
      if a < cfg.pose_down_angle ∧ s1.stage.getD ind "-" = "down" then
        { s1 with
          stage := s1.stage.set ind "up"
          count := s1.count.set ind (s1.count.getD ind 0 + 1) }
      else s1
    else if isDescent cfg.pose_type then
      -- if self.angle[ind] > self.poseup_angle: self.stage[ind] = "up"
      let s1 : WorkoutState :=
        if a > cfg.pose_up_angle then { s0 with stage := s0.stage.set ind "up" } else s0
      -- if self.angle[ind] < self.posedown_angle and self.stage[ind] == "up":
      if a < cfg.pose_down_angle ∧ s1.stage.getD ind "-" = "up" then
        { s1 with
          stage := s1.stage.set ind "down"
          count := s1.count.set ind (s1.count.getD ind 0 + 1) }
      else s1
    else s0
  else s

/-- The loop `for ind, k in enumerate(reversed(self.keypoints))`, with `ks`
the remaining (already reversed) detections and `ind` the running index. -/
def processFrom (cfg : Config) (s : WorkoutState) (ind : ℕ) : List ℚ → WorkoutState
  | [] => s
  | a :: rest => processFrom cfg (processOne cfg s ind a) (ind + 1) rest

/-- The slot-growth block of `start_counting` (source lines 78–82):
`if len(results[0]) > len(self.count):` append `new_human` default entries
to all three lists, where `m` is the current frame's detection count. -/
def grow (s : WorkoutState) (m : ℕ) : WorkoutState :=
  if s.count.length < m then
    let new_human := m - s.count.length
    { count := s.count ++ List.replicate new_human 0
      angle := s.angle ++ List.replicate new_human 0
      stage := s.stage ++ List.replicate new_human "-" }
  else s

/-- `WorkoutMonitor.start_counting`, restricted to its counting state:
early return on an empty detection batch (`if not len(results[0])`),
slot growth, then the per-slot loop over the reversed detections. -/
def start_counting (cfg : Config) (s : WorkoutState) (results : List ℚ) : WorkoutState :=
  if results.length = 0 then s
  else processFrom cfg (grow s results.length) 0 results.reverse

/-- A whole run: one `start_counting` call per frame. -/
def runUpdates (cfg : Config) (s : WorkoutState) (frames : List (List ℚ)) : WorkoutState :=
  frames.foldl (start_counting cfg) s

/-- Well-formedness: the three parallel per-slot lists have equal length. -/
def WF (s : WorkoutState) : Prop :=
  s.angle.length = s.count.length ∧ s.stage.length = s.count.length

instance (s : WorkoutState) : Decidable (WF s) := by
  unfold WF; infer_instance

/-! ### General-purpose list lemmas -/

lemma getD_set_ne {α : Type _} (l : List α) {i j : ℕ} (a d : α) (h : i ≠ j) :
    (l.set i a).getD j d = l.getD j d := by
  simp [List.getD_eq_getElem?_getD, List.getElem?_set_ne h]

lemma getD_append_replicate {α : Type _} (l : List α) (n : ℕ) (d : α) (i : ℕ) :
    (l ++ List.replicate n d).getD i d = l.getD i d := by
  by_cases h : i < l.length
  · exact List.getD_append _ _ _ _ h
  · rw [List.getD_append_right _ _ _ _ (le_of_not_lt h),
      List.getD_eq_default _ _ (le_of_not_lt h),
      List.getD_eq_getElem?_getD, List.getElem?_getD_replicate_default_eq]

lemma getD_set_self_lt {α : Type _} (l : List α) {i : ℕ} (a d : α) (h : i < l.length) :
    (l.set i a).getD i d = a := by
  simp [List.getD_eq_getElem?_getD, List.getElem?_set_self h]

lemma set_oob {α : Type _} (l : List α) {i : ℕ} (a : α) (h : l.length ≤ i) :
    l.set i a = l :=
  List.set_eq_of_length_le h

/-! ### Shape lemmas for `processOne` -/

lemma processOne_angle (cfg : Config) (s : WorkoutState) (ind : ℕ) (a : ℚ) :
    (processOne cfg s ind a).angle =
      if isRecognized cfg.pose_type then s.angle.set ind a else s.angle := by
  simp only [processOne]
  split_ifs <;> rfl

lemma processOne_stage (cfg : Config) (s : WorkoutState) (ind : ℕ) (a : ℚ) :
    (processOne cfg s ind a).stage = s.stage ∨
      ∃ st, (processOne cfg s ind a).stage = s.stage.set ind st := by
  simp only [processOne]
  split_ifs <;>
    first
      | exact Or.inl rfl
      | exact Or.inr ⟨"down", rfl⟩
      | exact Or.inr ⟨"up", rfl⟩
      | exact Or.inr ⟨"up", List.set_set _ _ _ _⟩
      | exact Or.inr ⟨"down", List.set_set _ _ _ _⟩

lemma processOne_count (cfg : Config) (s : WorkoutState) (ind : ℕ) (a : ℚ) :
    (processOne cfg s ind a).count = s.count ∨
      (processOne cfg s ind a).count = s.count.set ind (s.count.getD ind 0 + 1) := by
  simp only [processOne]
  split_ifs <;> first | exact Or.inl rfl | exact Or.inr rfl

lemma processOne_count_length (cfg : Config) (s : WorkoutState) (ind : ℕ) (a : ℚ) :
    (processOne cfg s ind a).count.length = s.count.length := by
  rcases processOne_count cfg s ind a with h | h <;> simp [h]

lemma processOne_angle_length (cfg : Config) (s : WorkoutState) (ind : ℕ) (a : ℚ) :
    (processOne cfg s ind a).angle.length = s.angle.length := by
  rw [processOne_angle]; split_ifs <;> simp

lemma processOne_stage_length (cfg : Config) (s : WorkoutState) (ind : ℕ) (a : ℚ) :
    (processOne cfg s ind a).stage.length = s.stage.length := by
  rcases processOne_stage cfg s ind a with h | ⟨st, h⟩ <;> simp [h]

lemma processOne_getD_ne (cfg : Config) (s : WorkoutState) (ind : ℕ) (a : ℚ)
    {j : ℕ} (hj : j ≠ ind) :
    (processOne cfg s ind a).angle.getD j 0 = s.angle.getD j 0 ∧
    (processOne cfg s ind a).stage.getD j "-" = s.stage.getD j "-" ∧
    (processOne cfg s ind a).count.getD j 0 = s.count.getD j 0 := by
  refine ⟨?_, ?_, ?_⟩
  · rw [processOne_angle]
    split_ifs
    · exact getD_set_ne _ _ _ hj.symm
    · rfl
  · rcases processOne_stage cfg s ind a with h | ⟨st, h⟩
    · rw [h]
    · rw [h]; exact getD_set_ne _ _ _ hj.symm
  · rcases processOne_count cfg s ind a with h | h
    · rw [h]
    · rw [h]; exact getD_set_ne _ _ _ hj.symm

lemma processOne_count_getD_mono (cfg : Config) (s : WorkoutState) (ind : ℕ) (a : ℚ)
    (j : ℕ) :
    s.count.getD j 0 ≤ (processOne cfg s ind a).count.getD j 0 := by
  rcases processOne_count cfg s ind a with h | h
  · rw [h]
  · rw [h]
    rcases eq_or_ne ind j with rfl | hne
    · by_cases hl : ind < s.count.length
      · rw [getD_set_self_lt _ _ _ hl]; exact Nat.le_succ _
      · rw [set_oob _ _ (le_of_not_lt hl)]
    · rw [getD_set_ne _ _ _ hne]

lemma processOne_count_getD_le_succ (cfg : Config) (s : WorkoutState) (ind : ℕ) (a : ℚ)
    (j : ℕ) :
    (processOne cfg s ind a).count.getD j 0 ≤ s.count.getD j 0 + 1 := by
  rcases processOne_count cfg s ind a with h | h
  · rw [h]; exact Nat.le_succ _
  · rw [h]
    rcases eq_or_ne ind j with rfl | hne
    · by_cases hl : ind < s.count.length
      · rw [getD_set_self_lt _ _ _ hl]
      · rw [set_oob _ _ (le_of_not_lt hl)]; exact Nat.le_succ _
    · rw [getD_set_ne _ _ _ hne]; exact Nat.le_succ _

/-! ### Lemmas about the loop `processFrom` -/

lemma processFrom_count_length (cfg : Config) (ks : List ℚ) :
    ∀ (s : WorkoutState) (ind : ℕ),
      (processFrom cfg s ind ks).count.length = s.count.length := by
  induction ks with
  | nil => intro s ind; rfl
  | cons a rest ih =>
      intro s ind
      rw [processFrom, ih, processOne_count_length]

lemma processFrom_angle_length (cfg : Config) (ks : List ℚ) :
    ∀ (s : WorkoutState) (ind : ℕ),
      (processFrom cfg s ind ks).angle.length = s.angle.length := by
  induction ks with
  | nil => intro s ind; rfl
  | cons a rest ih =>
      intro s ind
      rw [processFrom, ih, processOne_angle_length]

lemma processFrom_stage_length (cfg : Config) (ks : List ℚ) :
    ∀ (s : WorkoutState) (ind : ℕ),
      (processFrom cfg s ind ks).stage.length = s.stage.length := by
  induction ks with
  | nil => intro s ind; rfl
  | cons a rest ih =>
      intro s ind
      rw [processFrom, ih, processOne_stage_length]

/-- Indices outside the window `[ind, ind + ks.length)` are untouched by the
loop. -/
lemma processFrom_getD_untouched (cfg : Config) (ks : List ℚ) :
    ∀ (s : WorkoutState) (ind j : ℕ), (j < ind ∨ ind + ks.length ≤ j) →
      (processFrom cfg s ind ks).angle.getD j 0 = s.angle.getD j 0 ∧
      (processFrom cfg s ind ks).stage.getD j "-" = s.stage.getD j "-" ∧
      (processFrom cfg s ind ks).count.getD j 0 = s.count.getD j 0 := by
  induction ks with
  | nil => intro s ind j _; exact ⟨rfl, rfl, rfl⟩
  | cons a rest ih =>
      intro s ind j hj
      have hne : j ≠ ind := by
        rcases hj with h | h
        · exact Nat.ne_of_lt h
        · refine Nat.ne_of_gt ?_
          calc ind < ind + (rest.length + 1) := by omega
            _ ≤ j := h
      have hj' : j < ind + 1 ∨ (ind + 1) + rest.length ≤ j := by
        rcases hj with h | h
        · exact Or.inl (Nat.lt_succ_of_lt h)
        · right; simp only [List.length_cons] at h; omega
      have h1 := processOne_getD_ne cfg s ind a hne
      have h2 := ih (processOne cfg s ind a) (ind + 1) j hj'
      rw [processFrom]
      exact ⟨h2.1.trans h1.1, h2.2.1.trans h1.2.1, h2.2.2.trans h1.2.2⟩

lemma processFrom_count_getD_mono (cfg : Config) (ks : List ℚ) :
    ∀ (s : WorkoutState) (ind j : ℕ),
      s.count.getD j 0 ≤ (processFrom cfg s ind ks).count.getD j 0 := by
  induction ks with
  | nil => intro s ind j; exact Nat.le_refl _
  | cons a rest ih =>
      intro s ind j
      rw [processFrom]
      exact (processOne_count_getD_mono cfg s ind a j).trans
        (ih (processOne cfg s ind a) (ind + 1) j)

lemma processFrom_count_getD_le_succ (cfg : Config) (ks : List ℚ) :
    ∀ (s : WorkoutState) (ind j : ℕ),
      (processFrom cfg s ind ks).count.getD j 0 ≤ s.count.getD j 0 + 1 := by
  induction ks with
  | nil => intro s ind j; exact Nat.le_succ _
  | cons a rest ih =>
      intro s ind j
      rw [processFrom]
      rcases eq_or_ne j ind with rfl | hne
      · have huntouched :=
          (processFrom_getD_untouched cfg rest (processOne cfg s j a) (j + 1) j
            (Or.inl (Nat.lt_succ_self j))).2.2
        rw [huntouched]
        exact processOne_count_getD_le_succ cfg s j a j
      · have h1 := (processOne_getD_ne cfg s ind a hne).2.2
        calc (processFrom cfg (processOne cfg s ind a) (ind + 1) rest).count.getD j 0
            ≤ (processOne cfg s ind a).count.getD j 0 + 1 :=
              ih (processOne cfg s ind a) (ind + 1) j
          _ = s.count.getD j 0 + 1 := by rw [h1]

/-! ### Lemmas about `grow` and `start_counting` -/

lemma grow_getD (s : WorkoutState) (m : ℕ) (i : ℕ) :
    (grow s m).angle.getD i 0 = s.angle.getD i 0 ∧
    (grow s m).stage.getD i "-" = s.stage.getD i "-" ∧
    (grow s m).count.getD i 0 = s.count.getD i 0 := by
  unfold grow
  split_ifs
  · exact ⟨getD_append_replicate _ _ _ _, getD_append_replicate _ _ _ _,
      getD_append_replicate _ _ _ _⟩
  · exact ⟨rfl, rfl, rfl⟩

lemma grow_count_length (s : WorkoutState) (m : ℕ) :
    (grow s m).count.length = max s.count.length m := by
  unfold grow
  split_ifs with h
  · simp; omega
  · simp; omega

lemma WF_grow (s : WorkoutState) (m : ℕ) (h : WF s) : WF (grow s m) := by
  obtain ⟨h1, h2⟩ := h
  unfold grow WF
  split_ifs
  · simp [h1, h2]
  · exact ⟨h1, h2⟩

lemma start_counting_nil (cfg : Config) (s : WorkoutState) :
    start_counting cfg s [] = s := rfl

lemma start_counting_count_length (cfg : Config) (s : WorkoutState) (results : List ℚ) :
    (start_counting cfg s results).count.length = max s.count.length results.length := by
  unfold start_counting
  split_ifs with h
  · rw [List.length_eq_zero] at h
    subst h; simp
  · rw [processFrom_count_length, grow_count_length]

lemma runUpdates_count_length (cfg : Config) (frames : List (List ℚ)) :
    ∀ s : WorkoutState,
      (runUpdates cfg s frames).count.length =
        frames.foldl (fun m f => max m f.length) s.count.length := by
  induction frames with
  | nil => intro s; rfl
  | cons f rest ih =>
      intro s
      show (runUpdates cfg (start_counting cfg s f) rest).count.length = _
      rw [ih, List.foldl_cons, start_counting_count_length]

lemma WF_start_counting (cfg : Config) (s : WorkoutState) (results : List ℚ)
    (h : WF s) : WF (start_counting cfg s results) := by
  unfold start_counting
  split_ifs
  · exact h
  · have hg := WF_grow s results.length h
    exact ⟨(processFrom_angle_length cfg _ _ _).trans
        (hg.1.trans (processFrom_count_length cfg _ _ _).symm),
      (processFrom_stage_length cfg _ _ _).trans
        (hg.2.trans (processFrom_count_length cfg _ _ _).symm)⟩

/-- Slots beyond the current frame's detection count are untouched by one
`start_counting` call. -/
lemma start_counting_getD_high (cfg : Config) (s : WorkoutState) (results : List ℚ)
    (j : ℕ) :
    (start_counting cfg s results).angle.getD (results.length + j) 0
        = s.angle.getD (results.length + j) 0 ∧
    (start_counting cfg s results).stage.getD (results.length + j) "-"
        = s.stage.getD (results.length + j) "-" ∧
    (start_counting cfg s results).count.getD (results.length + j) 0
        = s.count.getD (results.length + j) 0 := by
  unfold start_counting
  split_ifs
  · exact ⟨rfl, rfl, rfl⟩
  · have hout : results.length + j < 0 ∨ 0 + results.reverse.length ≤ results.length + j := by
      right; simp
    have h1 := processFrom_getD_untouched cfg results.reverse (grow s results.length) 0
      (results.length + j) hout
    have h2 := grow_getD s results.length (results.length + j)
    exact ⟨h1.1.trans h2.1, h1.2.1.trans h2.2.1, h1.2.2.trans h2.2.2⟩

lemma start_counting_count_getD_mono (cfg : Config) (s : WorkoutState)
    (results : List ℚ) (j : ℕ) :
    s.count.getD j 0 ≤ (start_counting cfg s results).count.getD j 0 := by
  unfold start_counting
  split_ifs
  · exact Nat.le_refl _
  · calc s.count.getD j 0 = (grow s results.length).count.getD j 0 :=
          (grow_getD s results.length j).2.2.symm
      _ ≤ _ := processFrom_count_getD_mono cfg results.reverse _ 0 j

lemma start_counting_count_getD_le_succ (cfg : Config) (s : WorkoutState)
    (results : List ℚ) (j : ℕ) :
    (start_counting cfg s results).count.getD j 0 ≤ s.count.getD j 0 + 1 := by
  unfold start_counting
  split_ifs
  · exact Nat.le_succ _
  · calc (processFrom cfg (grow s results.length) 0 results.reverse).count.getD j 0
        ≤ (grow s results.length).count.getD j 0 + 1 :=
          processFrom_count_getD_le_succ cfg results.reverse _ 0 j
      _ = s.count.getD j 0 + 1 := by rw [(grow_getD s results.length j).2.2]

lemma runUpdates_count_getD_mono (cfg : Config) (frames : List (List ℚ)) :
    ∀ (s : WorkoutState) (j : ℕ),
      s.count.getD j 0 ≤ (runUpdates cfg s frames).count.getD j 0 := by
  induction frames with
  | nil => intro s j; exact Nat.le_refl _
  | cons f rest ih =>
      intro s j
      exact (start_counting_count_getD_mono cfg s f j).trans
        (ih (start_counting cfg s f) j)

/-! ### Exercise-type family facts -/

lemma isAscent_isRecognized (t : String) (h : isAscent t = true) :
    isRecognized t = true := by
  simp only [isAscent, Bool.or_eq_true, beq_iff_eq] at h
  rcases h with h | h <;> subst h <;> rfl

lemma isDescent_isRecognized (t : String) (h : isDescent t = true) :
    isRecognized t = true := by
  simp only [isDescent, Bool.or_eq_true, beq_iff_eq] at h
  rcases h with h | h <;> subst h <;> rfl

lemma isRecognized_cases (t : String) (h : isRecognized t = true) :
    isAscent t = true ∨ isDescent t = true := by
  simp only [isRecognized, Bool.or_eq_true, beq_iff_eq] at h
  rcases h with ((h | h) | h) | h <;> subst h <;> simp [isAscent, isDescent]

/-! ### Unrecognized exercise types -/

lemma processOne_unrecognized (cfg : Config) (s : WorkoutState) (ind : ℕ) (a : ℚ)
    (h : isRecognized cfg.pose_type = false) :
    processOne cfg s ind a = s := by
  simp [processOne, h]

lemma processFrom_unrecognized (cfg : Config) (ks : List ℚ)
    (h : isRecognized cfg.pose_type = false) :
    ∀ (s : WorkoutState) (ind : ℕ), processFrom cfg s ind ks = s := by
  induction ks with
  | nil => intro s ind; rfl
  | cons a rest ih =>
      intro s ind
      rw [processFrom, processOne_unrecognized cfg s ind a h, ih]

/-! ### Single-slot step characterizations -/

lemma start_counting_single (cfg : Config) (c : ℕ) (x a : ℚ) (st : String) :
    start_counting cfg ⟨[c], [x], [st]⟩ [a] = processOne cfg ⟨[c], [x], [st]⟩ 0 a := rfl

lemma processOne_single_ascent (cfg : Config) (hasc : isAscent cfg.pose_type = true)
    (c : ℕ) (x a : ℚ) (st : String) :
    processOne cfg ⟨[c], [x], [st]⟩ 0 a =
      if a > cfg.pose_up_angle then
        (if a < cfg.pose_down_angle then ⟨[c + 1], [a], ["up"]⟩
         else ⟨[c], [a], ["down"]⟩)
      else
        (if a < cfg.pose_down_angle ∧ st = "down" then ⟨[c + 1], [a], ["up"]⟩
         else ⟨[c], [a], [st]⟩) := by
  have hrec := isAscent_isRecognized _ hasc
  by_cases hgt : a > cfg.pose_up_angle <;> by_cases hlt : a < cfg.pose_down_angle
  · simp [processOne, hrec, hasc, hgt, hlt]
  · simp [processOne, hrec, hasc, hgt, hlt]
  · by_cases hst : st = "down" <;> simp [processOne, hrec, hasc, hgt, hlt, hst]
  · simp [processOne, hrec, hasc, hgt, hlt]

lemma processOne_single_descent (cfg : Config) (hdesc : isDescent cfg.pose_type = true)
    (hnasc : isAscent cfg.pose_type = false)
    (c : ℕ) (x a : ℚ) (st : String) :
    processOne cfg ⟨[c], [x], [st]⟩ 0 a =
      if a > cfg.pose_up_angle then
        (if a < cfg.pose_down_angle then ⟨[c + 1], [a], ["down"]⟩
         else ⟨[c], [a], ["up"]⟩)
      else
        (if a < cfg.pose_down_angle ∧ st = "up" then ⟨[c + 1], [a], ["down"]⟩
         else ⟨[c], [a], [st]⟩) := by
  have hrec := isDescent_isRecognized _ hdesc
  by_cases hgt : a > cfg.pose_up_angle <;> by_cases hlt : a < cfg.pose_down_angle
  · simp [processOne, hrec, hnasc, hdesc, hgt, hlt]
  · simp [processOne, hrec, hnasc, hdesc, hgt, hlt]
  · by_cases hst : st = "up" <;> simp [processOne, hrec, hnasc, hdesc, hgt, hlt, hst]
  · simp [processOne, hrec, hnasc, hdesc, hgt, hlt]

/-! ### Single-person runs: one detection per frame -/

/-- A run in which each frame contains exactly one detection. -/
def singFrames (l : List ℚ) : List (List ℚ) := l.map (fun a => [a])

lemma runUpdates_append (cfg : Config) (s : WorkoutState) (l1 l2 : List (List ℚ)) :
    runUpdates cfg s (l1 ++ l2) = runUpdates cfg (runUpdates cfg s l1) l2 :=
  List.foldl_append _ _ _ _

lemma singFrames_append (l1 l2 : List ℚ) :
    singFrames (l1 ++ l2) = singFrames l1 ++ singFrames l2 :=
  List.map_append _ _ _

lemma runUpdates_init_single (cfg : Config) (l : List ℚ) (h : l ≠ []) :
    runUpdates cfg initState (singFrames l) =
      runUpdates cfg ⟨[0], [0], ["-"]⟩ (singFrames l) := by
  cases l with
  | nil => exact absurd rfl h
  | cons a rest => rfl

lemma run_neutral_ascent (cfg : Config) (hasc : isAscent cfg.pose_type = true)
    (l : List ℚ) :
    ∀ (c : ℕ) (x : ℚ) (st : String),
      (∀ b ∈ l, ¬ b > cfg.pose_up_angle ∧ ¬ b < cfg.pose_down_angle) →
      ∃ x', runUpdates cfg ⟨[c], [x], [st]⟩ (singFrames l) = ⟨[c], [x'], [st]⟩ := by
  induction l with
  | nil => intro c x st _; exact ⟨x, rfl⟩
  | cons b rest ih =>
      intro c x st hl
      have hb := hl b (List.mem_cons_self b rest)
      have hstep : start_counting cfg ⟨[c], [x], [st]⟩ [b] = ⟨[c], [b], [st]⟩ := by
        rw [start_counting_single, processOne_single_ascent cfg hasc,
          if_neg hb.1, if_neg (fun hc => hb.2 hc.1)]
      obtain ⟨x', hx'⟩ := ih c b st (fun b' hb' => hl b' (List.mem_cons_of_mem _ hb'))
      refine ⟨x', ?_⟩
      show runUpdates cfg (start_counting cfg ⟨[c], [x], [st]⟩ [b]) (singFrames rest) = _
      rw [hstep, hx']

lemma run_high_ascent (cfg : Config) (hasc : isAscent cfg.pose_type = true)
    (hud : cfg.pose_down_angle ≤ cfg.pose_up_angle) (l : List ℚ) :
    ∀ (c : ℕ) (x : ℚ) (st : String),
      (∀ b ∈ l, b > cfg.pose_up_angle) →
      ∃ x', runUpdates cfg ⟨[c], [x], [st]⟩ (singFrames l)
              = ⟨[c], [x'], [if l = [] then st else "down"]⟩ := by
  induction l with
  | nil => intro c x st _; exact ⟨x, rfl⟩
  | cons b rest ih =>
      intro c x st hl
      have hb := hl b (List.mem_cons_self b rest)
      have hnlt : ¬ b < cfg.pose_down_angle := by intro hlt; linarith
      have hstep : start_counting cfg ⟨[c], [x], [st]⟩ [b] = ⟨[c], [b], ["down"]⟩ := by
        rw [start_counting_single, processOne_single_ascent cfg hasc,
          if_pos hb, if_neg hnlt]
      obtain ⟨x', hx'⟩ := ih c b "down" (fun b' hb' => hl b' (List.mem_cons_of_mem _ hb'))
      refine ⟨x', ?_⟩
      show runUpdates cfg (start_counting cfg ⟨[c], [x], [st]⟩ [b]) (singFrames rest) = _
      rw [hstep, hx']
      simp

lemma run_low_stay_up (cfg : Config) (hasc : isAscent cfg.pose_type = true)
    (hud : cfg.pose_down_angle ≤ cfg.pose_up_angle) (l : List ℚ) :
    ∀ (c : ℕ) (x : ℚ),
      (∀ b ∈ l, b < cfg.pose_down_angle) →
      ∃ x', runUpdates cfg ⟨[c], [x], ["up"]⟩ (singFrames l) = ⟨[c], [x'], ["up"]⟩ := by
  induction l with
  | nil => intro c x _; exact ⟨x, rfl⟩
  | cons b rest ih =>
      intro c x hl
      have hb := hl b (List.mem_cons_self b rest)
      have hngt : ¬ b > cfg.pose_up_angle := by intro hgt; linarith
      have hstep : start_counting cfg ⟨[c], [x], ["up"]⟩ [b] = ⟨[c], [b], ["up"]⟩ := by
        rw [start_counting_single, processOne_single_ascent cfg hasc, if_neg hngt,
          if_neg (fun hc => absurd hc.2 (by decide))]
      obtain ⟨x', hx'⟩ := ih c b (fun b' hb' => hl b' (List.mem_cons_of_mem _ hb'))
      refine ⟨x', ?_⟩
      show runUpdates cfg (start_counting cfg ⟨[c], [x], ["up"]⟩ [b]) (singFrames rest) = _
      rw [hstep, hx']

lemma run_low_ascent (cfg : Config) (hasc : isAscent cfg.pose_type = true)
    (hud : cfg.pose_down_angle ≤ cfg.pose_up_angle) (l : List ℚ) (hne : l ≠ [])
    (hl : ∀ b ∈ l, b < cfg.pose_down_angle) (c : ℕ) (x : ℚ) :
    ∃ x', runUpdates cfg ⟨[c], [x], ["down"]⟩ (singFrames l)
            = ⟨[c + 1], [x'], ["up"]⟩ := by
  cases l with
  | nil => exact absurd rfl hne
  | cons b rest =>
      have hb := hl b (List.mem_cons_self b rest)
      have hngt : ¬ b > cfg.pose_up_angle := by intro hgt; linarith
      have hstep : start_counting cfg ⟨[c], [x], ["down"]⟩ [b]
          = ⟨[c + 1], [b], ["up"]⟩ := by
        rw [start_counting_single, processOne_single_ascent cfg hasc, if_neg hngt,
          if_pos ⟨hb, rfl⟩]
      obtain ⟨x', hx'⟩ :=
        run_low_stay_up cfg hasc hud rest (c + 1) b
          (fun b' hb' => hl b' (List.mem_cons_of_mem _ hb'))
      refine ⟨x', ?_⟩
      show runUpdates cfg (start_counting cfg ⟨[c], [x], ["down"]⟩ [b]) (singFrames rest) = _
      rw [hstep, hx']

/-! ### Remaining helper lemmas -/

lemma isDescent_not_isAscent (t : String) (h : isDescent t = true) :
    isAscent t = false := by
  simp only [isDescent, Bool.or_eq_true, beq_iff_eq] at h
  rcases h with h | h <;> subst h <;> rfl

lemma WF_runUpdates (cfg : Config) (frames : List (List ℚ)) :
    ∀ s : WorkoutState, WF s → WF (runUpdates cfg s frames) := by
  induction frames with
  | nil => intro s h; exact h
  | cons f rest ih => intro s h; exact ih _ (WF_start_counting cfg s f h)

/-- Within the loop, the slot at loop index `ind + i` receives the angle of
the `(ind + i)`-th element of the (already reversed) detection list. -/
lemma processFrom_angle_write (cfg : Config) (hrec : isRecognized cfg.pose_type = true)
    (ks : List ℚ) :
    ∀ (s : WorkoutState) (ind i : ℕ), ind + ks.length ≤ s.angle.length →
      i < ks.length →
      (processFrom cfg s ind ks).angle.getD (ind + i) 0 = ks.getD i 0 := by
  induction ks with
  | nil => intro s ind i _ hi; exact absurd hi (by simp)
  | cons a rest ih =>
      intro s ind i hlen hi
      cases i with
      | zero =>
          rw [Nat.add_zero, processFrom]
          have huntouched := (processFrom_getD_untouched cfg rest
            (processOne cfg s ind a) (ind + 1) ind (Or.inl (Nat.lt_succ_self ind))).1
          rw [huntouched, processOne_angle, if_pos hrec]
          have hind : ind < s.angle.length := by
            simp only [List.length_cons] at hlen; omega
          rw [getD_set_self_lt _ _ _ hind, List.getD_cons_zero]
      | succ i' =>
          rw [processFrom]
          have h1 : ind + (i' + 1) = (ind + 1) + i' := by omega
          rw [h1]
          have hlen' : (ind + 1) + rest.length ≤ (processOne cfg s ind a).angle.length := by
            rw [processOne_angle_length]
            simp only [List.length_cons] at hlen; omega
          have hi' : i' < rest.length := by
            simp only [List.length_cons] at hi; omega
          rw [ih (processOne cfg s ind a) (ind + 1) i' hlen' hi', List.getD_cons_succ]

lemma reverse_getD_zero (l : List ℚ) (d : ℚ) : l.reverse.getD 0 d = l.getLastD d := by
  rw [List.getD_eq_getElem?_getD, ← List.head?_eq_getElem?, List.head?_reverse,
    List.getLastD_eq_getLast?]

/-! ### Claims -/

/-- C1: with exercise type pushup, up-threshold 145 and down-threshold 90,
feeding a single detected person through the angle sequence
`[170, 170, 80, 80, 170]` over five consecutive `start_counting` calls
produces the per-frame stage sequence `[up, up, down, down, up]` and a final
count of 1, with the single increment occurring on frame index 2 (the first
frame with angle 80): the count after each frame is `[0, 0, 1, 1, 1]`. -/
theorem C1_pushup_scenario :
    (runUpdates ⟨145, 90, "pushup"⟩ initState [[170]]).stage = ["up"] ∧
    (runUpdates ⟨145, 90, "pushup"⟩ initState [[170]]).count = [0] ∧
    (runUpdates ⟨145, 90, "pushup"⟩ initState [[170], [170]]).stage = ["up"] ∧
    (runUpdates ⟨145, 90, "pushup"⟩ initState [[170], [170]]).count = [0] ∧
    (runUpdates ⟨145, 90, "pushup"⟩ initState [[170], [170], [80]]).stage = ["down"] ∧
    (runUpdates ⟨145, 90, "pushup"⟩ initState [[170], [170], [80]]).count = [1] ∧
    (runUpdates ⟨145, 90, "pushup"⟩ initState
        [[170], [170], [80], [80]]).stage = ["down"] ∧
    (runUpdates ⟨145, 90, "pushup"⟩ initState
        [[170], [170], [80], [80]]).count = [1] ∧
    (runUpdates ⟨145, 90, "pushup"⟩ initState
        [[170], [170], [80], [80], [170]]).stage = ["up"] ∧
    (runUpdates ⟨145, 90, "pushup"⟩ initState
        [[170], [170], [80], [80], [170]]).count = [1] := by
  decide

/-- C2 (counterexample): with the unrecognized exercise type `"yoga"`, a
`start_counting` call on one detection with angle 170 does NOT store the
computed joint angle into the paired slot — the slot's angle stays at its
default 0, refuting the claim that the angle is still computed and stored
for unrecognized exercise types. -/
theorem C2_counterexample :
    ¬ ((start_counting ⟨145, 90, "yoga"⟩ initState [170]).angle.getD 0 0 = 170) := by
  decide

/-- C2 (amended): for every run configured with an exercise type outside
\x7bpushup, pullup, squat, abworkout\x7d, `start_counting` neither stores any
slot's joint angle nor changes any slot's stage or count: every slot's
`(angle, stage, count)` entries are unchanged (slot growth only appends
entries that equal the defaults). -/
theorem C2_unrecognized_noop (cfg : Config) (s : WorkoutState) (results : List ℚ)
    (j : ℕ) (hrec : isRecognized cfg.pose_type = false) :
    (start_counting cfg s results).angle.getD j 0 = s.angle.getD j 0 ∧
    (start_counting cfg s results).stage.getD j "-" = s.stage.getD j "-" ∧
    (start_counting cfg s results).count.getD j 0 = s.count.getD j 0 := by
  unfold start_counting
  split_ifs
  · exact ⟨rfl, rfl, rfl⟩
  · rw [processFrom_unrecognized cfg results.reverse hrec]
    exact grow_getD s results.length j

theorem C2_unrecognized_noop_witness :
    isRecognized (Config.mk 145 90 "yoga").pose_type = false ∧
    (start_counting ⟨145, 90, "yoga"⟩ initState [170]).angle.getD 0 0
        = initState.angle.getD 0 0 :=
  ⟨by decide, (C2_unrecognized_noop ⟨145, 90, "yoga"⟩ initState [170] 0 (by decide)).1⟩

/-- C3: for every state of the counter, calling `start_counting` with an
empty detection batch any number of consecutive times leaves the whole state
(hence every slot's angle, stage and count) exactly unchanged; the call
total-functionally returns, it cannot fail. -/
theorem C3_empty_input_noop (cfg : Config) (s : WorkoutState) (n : ℕ) :
    (fun t => start_counting cfg t [])^[n] s = s := by
  induction n with
  | zero => rfl
  | succ k ih =>
      rw [Function.iterate_succ_apply]
      exact ih

/-- C4: for every single `start_counting` call and for every sequence of
calls, each slot's count is non-decreasing: each call leaves it equal or
larger, never smaller. -/
theorem C4_count_monotone :
    (∀ (cfg : Config) (s : WorkoutState) (f : List ℚ) (i : ℕ),
      s.count.getD i 0 ≤ (start_counting cfg s f).count.getD i 0) ∧
    (∀ (cfg : Config) (s : WorkoutState) (frames : List (List ℚ)) (i : ℕ),
      s.count.getD i 0 ≤ (runUpdates cfg s frames).count.getD i 0) :=
  ⟨fun cfg s f i => start_counting_count_getD_mono cfg s f i,
   fun cfg s frames i => runUpdates_count_getD_mono cfg frames s i⟩

/-- C5: the slot list never shrinks — after each `start_counting` call of a
run its length equals the maximum detection count seen so far; feeding
frames with detection counts `[2, 1, 3, 1]` ends with exactly 3 slots; and
any slot index not paired with a detection in a frame (index ≥ the frame's
detection count) keeps its `(angle, stage, count)` unchanged. -/
theorem C5_slot_growth :
    (∀ (cfg : Config) (frames : List (List ℚ)),
      (runUpdates cfg initState frames).count.length =
        frames.foldl (fun m f => max m f.length) 0) ∧
    (∀ cfg : Config,
      (runUpdates cfg initState [[160, 20], [50], [15, 25, 35], [40]]).count.length
        = 3) ∧
    (∀ (cfg : Config) (s : WorkoutState) (results : List ℚ) (j : ℕ),
      (start_counting cfg s results).angle.getD (results.length + j) 0
          = s.angle.getD (results.length + j) 0 ∧
      (start_counting cfg s results).stage.getD (results.length + j) "-"
          = s.stage.getD (results.length + j) "-" ∧
      (start_counting cfg s results).count.getD (results.length + j) 0
          = s.count.getD (results.length + j) 0) := by
  refine ⟨fun cfg frames => runUpdates_count_length cfg frames initState,
    fun cfg => ?_,
    fun cfg s results j => start_counting_getD_high cfg s results j⟩
  rw [runUpdates_count_length]
  rfl

/-- C6: for a single slot under an ascent-counts exercise type (pullup or
abworkout) with sane thresholds (down ≤ up), every angle sequence that rises
strictly above the up-threshold in exactly one contiguous phase and
afterwards falls strictly below the down-threshold in exactly one contiguous
phase (all other frames strictly between the thresholds) yields a final
count of exactly 1, regardless of how many consecutive frames each phase
spans. -/
theorem C6_ascent_single_cycle (cfg : Config)
    (htype : cfg.pose_type = "pullup" ∨ cfg.pose_type = "abworkout")
    (hud : cfg.pose_down_angle ≤ cfg.pose_up_angle)
    (m1 hs m2 ls m3 : List ℚ)
    (hm1 : ∀ b ∈ m1, ¬ b > cfg.pose_up_angle ∧ ¬ b < cfg.pose_down_angle)
    (hhs0 : hs ≠ []) (hhs : ∀ b ∈ hs, b > cfg.pose_up_angle)
    (hm2 : ∀ b ∈ m2, ¬ b > cfg.pose_up_angle ∧ ¬ b < cfg.pose_down_angle)
    (hls0 : ls ≠ []) (hls : ∀ b ∈ ls, b < cfg.pose_down_angle)
    (hm3 : ∀ b ∈ m3, ¬ b > cfg.pose_up_angle ∧ ¬ b < cfg.pose_down_angle) :
    (runUpdates cfg initState (singFrames (m1 ++ hs ++ m2 ++ ls ++ m3))).count
      = [1] := by
  have hasc : isAscent cfg.pose_type = true := by
    rcases htype with h | h <;> rw [h] <;> rfl
  have hne : m1 ++ hs ++ m2 ++ ls ++ m3 ≠ [] := by
    intro h
    simp only [List.append_eq_nil] at h
    exact hhs0 h.1.1.1.2
  rw [runUpdates_init_single cfg _ hne, singFrames_append, singFrames_append,
    singFrames_append, singFrames_append, runUpdates_append, runUpdates_append,
    runUpdates_append, runUpdates_append]
  obtain ⟨x1, h1⟩ := run_neutral_ascent cfg hasc m1 0 0 "-" hm1
  rw [h1]
  obtain ⟨x2, h2⟩ := run_high_ascent cfg hasc hud hs 0 x1 "-" hhs
  rw [h2, if_neg hhs0]
  obtain ⟨x3, h3⟩ := run_neutral_ascent cfg hasc m2 0 x2 "down" hm2
  rw [h3]
  obtain ⟨x4, h4⟩ := run_low_ascent cfg hasc hud ls hls0 hls 0 x3
  rw [h4]
  obtain ⟨x5, h5⟩ := run_neutral_ascent cfg hasc m3 (0 + 1) x4 "up" hm3
  rw [h5]

theorem C6_ascent_single_cycle_witness :
    ((90 : ℚ) ≤ 145) ∧
    (runUpdates ⟨145, 90, "pullup"⟩ initState
        (singFrames ([] ++ [170] ++ [] ++ [80] ++ []))).count = [1] :=
  ⟨by decide,
   C6_ascent_single_cycle ⟨145, 90, "pullup"⟩ (Or.inl rfl) (by decide)
     [] [170] [] [80] []
     (by simp) (by simp) (by intro b hb; simp at hb; rw [hb]; decide)
     (by simp) (by simp) (by intro b hb; simp at hb; rw [hb]; decide)
     (by simp)⟩

/-- C7: for every recognized exercise type and every slot state, with
thresholds satisfying down ≤ up (as the defaults 145/90 do), an angle
exactly equal to the up-threshold or exactly equal to the down-threshold
triggers no stage transition and no count change: the comparisons in the
transition rules are strict. -/
theorem C7_threshold_equality_no_transition (cfg : Config)
    (hrec : isRecognized cfg.pose_type = true)
    (hud : cfg.pose_down_angle ≤ cfg.pose_up_angle)
    (c : ℕ) (x a : ℚ) (st : String)
    (ha : a = cfg.pose_up_angle ∨ a = cfg.pose_down_angle) :
    (start_counting cfg ⟨[c], [x], [st]⟩ [a]).stage = [st] ∧
    (start_counting cfg ⟨[c], [x], [st]⟩ [a]).count = [c] := by
  have hngt : ¬ a > cfg.pose_up_angle := by
    rcases ha with h | h
    · rw [h]; exact lt_irrefl _
    · rw [h]; exact not_lt.mpr hud
  have hnlt : ¬ a < cfg.pose_down_angle := by
    rcases ha with h | h
    · rw [h]; exact not_lt.mpr hud
    · rw [h]; exact lt_irrefl _
  rcases isRecognized_cases _ hrec with hasc | hdesc
  · rw [start_counting_single, processOne_single_ascent cfg hasc, if_neg hngt,
      if_neg (fun hc => hnlt hc.1)]
    exact ⟨rfl, rfl⟩
  · rw [start_counting_single,
      processOne_single_descent cfg hdesc (isDescent_not_isAscent _ hdesc),
      if_neg hngt, if_neg (fun hc => hnlt hc.1)]
    exact ⟨rfl, rfl⟩

theorem C7_threshold_equality_witness :
    isRecognized (Config.mk 145 90 "pushup").pose_type = true ∧
    (start_counting ⟨145, 90, "pushup"⟩ ⟨[0], [0], ["-"]⟩ [145]).stage = ["-"] ∧
    (start_counting ⟨145, 90, "pushup"⟩ ⟨[0], [0], ["-"]⟩ [145]).count = [0] :=
  ⟨by decide,
   (C7_threshold_equality_no_transition ⟨145, 90, "pushup"⟩ (by decide) (by decide)
     0 0 145 "-" (Or.inl rfl)).1,
   (C7_threshold_equality_no_transition ⟨145, 90, "pushup"⟩ (by decide) (by decide)
     0 0 145 "-" (Or.inl rfl)).2⟩

/-- C8: in every `start_counting` call with a recognized exercise type, a
well-formed state and a non-empty detection batch, the detections are
consumed in reverse of their natural order: slot `i` receives the angle of
the `i`-th element of the reversed detection list, and in particular slot 0
receives the angle of the LAST detection in natural order. -/
theorem C8_reverse_order_pairing (cfg : Config)
    (hrec : isRecognized cfg.pose_type = true)
    (s : WorkoutState) (hwf : WF s) (results : List ℚ) (i : ℕ)
    (hi : i < results.length) :
    (start_counting cfg s results).angle.getD i 0 = results.reverse.getD i 0 ∧
    (start_counting cfg s results).angle.getD 0 0 = results.getLastD 0 := by
  have key : ∀ i', i' < results.length →
      (start_counting cfg s results).angle.getD i' 0 = results.reverse.getD i' 0 := by
    intro i' hi'
    have hlen0 : ¬ results.length = 0 := by omega
    unfold start_counting
    rw [if_neg hlen0]
    have hwfg := WF_grow s results.length hwf
    have hlen : 0 + results.reverse.length ≤ (grow s results.length).angle.length := by
      rw [Nat.zero_add, List.length_reverse, hwfg.1, grow_count_length]
      omega
    have hkey := processFrom_angle_write cfg hrec results.reverse
      (grow s results.length) 0 i' hlen (by rw [List.length_reverse]; exact hi')
    rw [Nat.zero_add] at hkey
    exact hkey
  refine ⟨key i hi, ?_⟩
  rw [key 0 (by omega), reverse_getD_zero]

theorem C8_reverse_order_pairing_witness :
    isRecognized (Config.mk 145 90 "pushup").pose_type = true ∧ WF initState ∧
    (0 : ℕ) < [(10 : ℚ), 20].length ∧
    (start_counting ⟨145, 90, "pushup"⟩ initState [(10 : ℚ), 20]).angle.getD 0 0
        = ([(10 : ℚ), 20]).reverse.getD 0 0 :=
  ⟨by decide, by decide, by decide,
   (C8_reverse_order_pairing ⟨145, 90, "pushup"⟩ (by decide) initState (by decide)
     [(10 : ℚ), 20] 0 (by decide)).1⟩

/-- C9: after construction all three per-slot parallel lists are empty
(equal length), after every run of `start_counting` calls from the initial
state they still have equal length, and a single `start_counting` call
preserves the equal-length invariant from any well-formed state. -/
theorem C9_parallel_lists :
    WF initState ∧
    (∀ (cfg : Config) (frames : List (List ℚ)), WF (runUpdates cfg initState frames)) ∧
    (∀ (cfg : Config) (s : WorkoutState) (results : List ℚ),
      WF s → WF (start_counting cfg s results)) :=
  ⟨⟨rfl, rfl⟩,
   fun cfg frames => WF_runUpdates cfg frames initState ⟨rfl, rfl⟩,
   fun cfg s results h => WF_start_counting cfg s results h⟩

theorem C9_parallel_lists_witness :
    WF initState ∧ WF (start_counting ⟨145, 90, "pushup"⟩ initState [170]) :=
  ⟨C9_parallel_lists.1,
   C9_parallel_lists.2.2 ⟨145, 90, "pushup"⟩ initState [170] (by decide)⟩

/-- C10: within a single `start_counting` call, each slot's count increases
by at most 1: each loop index is visited exactly once per call, so at most
one increment branch can fire for it. -/
theorem C10_at_most_one_increment (cfg : Config) (s : WorkoutState)
    (results : List ℚ) (i : ℕ) :
    (start_counting cfg s results).count.getD i 0 ≤ s.count.getD i 0 + 1 :=
  start_counting_count_getD_le_succ cfg s results i
